import Mathlib

/-!
Shallow embedding of the notion-todo importer (src/main.py) and proofs about
its TODO-detection, marker rewriting, cleaning pipeline, pagination and
per-page processing loop.

Strings are modelled as lists of characters.  The two regular expressions of
the source,

  TODO_DETECT = ^[\s\W]*(todo|to-?do|to\s+do)\b        (IGNORECASE)
  TODO_REMOVE = ^[\s\W]*(todo|to-?do|to\s+do)[\s:]*    (IGNORECASE)

are embedded directly.  Both are anchored at the start of the string, and the
leading class [\s\W] is exactly the class of non-word characters (whitespace
is non-word), so a match, when it exists, consists of the maximal run of
non-word characters, then one of the three marker alternatives, then (for
TODO_DETECT) a word boundary, resp. (for TODO_REMOVE) the maximal run of
whitespace and colons.  The alternatives are mutually exclusive on any input
because the character following the initial "to" decides which one can match,
so the backtracking search of the regex engine is deterministic here and the
functional embedding below is faithful.  Word characters and whitespace are
modelled at ASCII level, matching the inputs this program handles.
-/

/-- Word character, as in the regex class \w (ASCII). -/
def isWordChar (c : Char) : Bool := c.isAlphanum || c = '_'

/-- Complement of isWordChar, the regex class [\s\W]. -/
def nonWord (c : Char) : Bool := !isWordChar c

/-- Whitespace as in the regex class \s and in str.strip (ASCII). -/
def isPySpace (c : Char) : Bool :=
  c = ' ' || c = '\t' || c = '\n' || c = '\r' || c = '\x0b' || c = '\x0c'

/-- The regex class [\s:], consumed after the marker by TODO_REMOVE. -/
def spaceColon (c : Char) : Bool := isPySpace c || c = ':'

/-- The regex class [:\-\s] stripped from cleaned text in create_todo_page. -/
def colonHyphenSpace (c : Char) : Bool := c = ':' || c = '-' || isPySpace c

/-- Case-insensitive match of one pattern character (ASCII case pairing). -/
def ciMatch (p c : Char) : Bool := c = p || c = p.toUpper

/-- Match a fixed pattern case-insensitively at the head of the input,
returning the remaining suffix on success. -/
def dropCI : List Char → List Char → Option (List Char)
  | [], cs => some cs
  | _ :: _, [] => none
  | p :: ps, c :: cs => if ciMatch p c then dropCI ps cs else none

/-- The marker alternation (todo|to-?do|to\s+do), tried in the order of the
source pattern; returns the suffix after the marker.  For the third
alternative the \s+ run is maximal, which is forced because the following
pattern character d is not whitespace. -/
def todoTok (cs : List Char) : Option (List Char) :=
  match dropCI ['t', 'o', 'd', 'o'] cs with
  | some r => some r
  | none =>
    match dropCI ['t', 'o', '-', 'd', 'o'] cs with
    | some r => some r
    | none =>
      match dropCI ['t', 'o'] cs with
      | some r =>
        match r with
        | c :: _ => if isPySpace c then dropCI ['d', 'o'] (r.dropWhile isPySpace) else none
        | [] => none
      | none => none

/-- The marker followed by a word boundary \b.  The marker ends in a word
character, so the boundary holds exactly when the suffix is empty or starts
with a non-word character. -/
def todoTokB (cs : List Char) : Option (List Char) :=
  match todoTok cs with
  | some suf =>
    match suf with
    | [] => some []
    | c :: r => if isWordChar c then none else some (c :: r)
  | none => none

/-- TODO_DETECT.search(line): the pattern is anchored, so it matches iff the
marker (with boundary) follows the maximal leading run of non-word chars. -/
def TODO_DETECT (line : List Char) : Bool :=
  (todoTokB (line.dropWhile nonWord)).isSome

/-- TODO_REMOVE.sub(repl, s, count=1): the anchored match spans the leading
non-word run, the marker and the trailing [\s:]* run; it is replaced by repl
and the rest of the string is kept.  If the pattern does not match, the
string is returned unchanged. -/
def todoRemoveSub (repl : List Char) (s : List Char) : List Char :=
  match todoTok (s.dropWhile nonWord) with
  | some suf => repl ++ suf.dropWhile spaceColon
  | none => s

/-- The replacement string "DONE " used by mark_todo_as_done. -/
def doneStr : List Char := ['D', 'O', 'N', 'E', ' ']

/-- Python str.strip(): drop leading and trailing whitespace. -/
def pyStrip (l : List Char) : List Char :=
  ((l.dropWhile isPySpace).reverse.dropWhile isPySpace).reverse

/-- re.sub(r"^\s*\[\s*[xX]?\s*\]\s*", "", line): strip leading checkbox
markup if present, else return the line unchanged.  Each \s* run and the
optional [xX]? are deterministic here because the following mandatory
characters are not in the respective classes. -/
def stripCheckbox (l : List Char) : List Char :=
  let l1 := l.dropWhile isPySpace
  match l1 with
  | '[' :: r =>
    let r1 := r.dropWhile isPySpace
    let r2 := match r1 with
      | c :: t => if c = 'x' || c = 'X' then t else r1
      | [] => r1
    let r3 := r2.dropWhile isPySpace
    (match r3 with
     | ']' :: t => t.dropWhile isPySpace
     | _ => l)
  | _ => l

/-- The per-line cleanup of process_date:
clean_line = re.sub(checkbox, "", line).strip() -/
def cleanTodoLine (line : List Char) : List Char :=
  pyStrip (stripCheckbox line)

/-- The cleaning steps of create_todo_page applied to the received text:
strip, remove the TODO pattern, strip, drop leading [:\-\s]+, strip. -/
def cleanTodoText (todoText : List Char) : List Char :=
  let c1 := pyStrip todoText
  let c2 := pyStrip (todoRemoveSub [] c1)
  pyStrip (c2.dropWhile colonHyphenSpace)

/-- Full pipeline from a detected source line to the created page title. -/
def cleanPipeline (line : List Char) : List Char :=
  cleanTodoText (cleanTodoLine line)

/-- Both casings of a character (just the character itself when caseless). -/
def caseOpts (c : Char) : List Char :=
  if c.toUpper = c then [c] else [c, c.toUpper]

/-- All casing variants of a lowercase pattern. -/
def casings : List Char → List (List Char)
  | [] => [[]]
  | c :: cs => (caseOpts c).flatMap (fun d => (casings cs).map (fun t => d :: t))

/-- Every casing of the three marker tokens named by the specification. -/
def todoForms : List (List Char) :=
  casings ['t', 'o', 'd', 'o'] ++ casings ['t', 'o', '-', 'd', 'o'] ++
    casings ['t', 'o', ' ', 'd', 'o']

/-!
Data model.  A rich-text segment carries plain content and an optional
hyperlink; a block carries an identifier, a type tag, a rich-text sequence
and the checkbox state.  A page carries its identifier, optional canonical
URL and the two relation properties used by create_todo_page.
-/

/-- One rich-text segment: plain content plus optional hyperlink URL. -/
structure RichSeg where
  content : List Char
  link : Option (List Char)
deriving DecidableEq

/-- A content block of a page. -/
structure Block where
  id : List Char
  type : String
  richText : List RichSeg
  checked : Bool
deriving DecidableEq

/-- A page, with the properties create_todo_page reads. -/
structure Page where
  id : List Char
  url : Option (List Char)
  parentRel : List (List Char)
  subItems : List (List Char)
deriving DecidableEq

/-- extract_text_from_block: concatenation of the plain text of the
segments of the block. -/
def extract_text_from_block (b : Block) : List Char :=
  (b.richText.map RichSeg.content).flatten

/-- The blocks collected as sub-items by the scanning loop of process_date. -/
def isListBlock (b : Block) : Bool :=
  b.type = "bulleted_list_item" || b.type = "numbered_list_item"

/-- Block text split into lines, modelling text.splitlines() for
newline-separated text. -/
def splitlines (cs : List Char) : List (List Char) :=
  cs.splitOn '\n'

/-- The update payload built by mark_todo_as_done: every segment has the
anchored TODO pattern substituted once by "DONE ", the rest of the segment
(including its hyperlink) is copied; the checked flag is set only for
to_do blocks. -/
structure BlockUpdate where
  richText : List RichSeg
  checked : Option Bool
deriving DecidableEq

/-- The substitution applied to one rich-text segment. -/
def doneSeg (s : RichSeg) : RichSeg :=
  { s with content := todoRemoveSub doneStr s.content }

/-- mark_todo_as_done, as the update payload it sends. -/
def mark_todo_as_done (b : Block) : BlockUpdate :=
  { richText := b.richText.map doneSeg
    checked := if b.type = "to_do" then some true else none }

/-- The effect of a successful mark_todo_as_done call on the remote block. -/
def markApply (b : Block) : Block :=
  { b with richText := b.richText.map doneSeg
           checked := if b.type = "to_do" then true else b.checked }

/-- source_page_url: the url property when present, else the canonical URL
built from the identifier with hyphens removed. -/
def sourceUrl (p : Page) : List Char :=
  p.url.getD ("https://www.notion.so/".toList ++ p.id.filter (fun c => c ≠ '-'))

/-- A child block of the created page. -/
structure ChildBlock where
  type : String
  richText : List RichSeg
deriving DecidableEq

/-- The closing paragraph appended by create_todo_page: a "Source: " segment
and a segment hyperlinked to the source page URL. -/
def closingPara (src : Page) : ChildBlock :=
  { type := "paragraph"
    richText := [{ content := "Source: ".toList, link := none },
                 { content := "Link to original page".toList, link := some (sourceUrl src) }] }

/-- The creation payload sent by client.pages.create. -/
structure NewPage where
  title : List Char
  typeName : String
  tags : List String
  parentRel : List (List Char)
  children : List ChildBlock
deriving DecidableEq

/-- create_todo_page, as the pages.create payload it sends. -/
def create_todo_page (src : Page) (todoText : List Char) (atts : List Block) : NewPage :=
  let clean := cleanTodoText todoText
  { title := clean
    typeName := "To-Do"
    tags := ["Auto Generated"]
    parentRel := if src.parentRel.isEmpty then [src.id] else src.parentRel
    children :=
      { type := "paragraph", richText := [{ content := clean, link := none }] } ::
      ((atts.filter isListBlock).map (fun b => { type := b.type, richText := b.richText })
        ++ [closingPara src]) }

/-- The control flow of create_todo_page around its two remote calls: if the
page creation fails the function returns failure; if it succeeds, the
sub-item relation update is attempted, its failure is only logged, and the
function returns success either way.  The pair is (returned success flag,
whether the sub-item update was applied). -/
def create_todo_page_run (pageOk subOk : Bool) : Bool × Bool :=
  if pageOk then (true, subOk) else (false, false)

/-- Remote calls made per TODO occurrence by the loop of process_date:
a create_todo_page call (with the collected attachments, the page-creation
outcome and, when attempted, the sub-item update outcome) and, only after a
successful creation, a mark_todo_as_done call with its outcome. -/
inductive Ev where
  | create (i : Nat) (atts : List Block) (pageOk : Bool) (subRes : Option Bool)
  | mark (i : Nat) (ok : Bool)
deriving DecidableEq

/-- Result of the per-page scanning loop: the calls made, and the remote
state of the scanned blocks afterwards. -/
structure RunResult where
  events : List Ev
  blocks : List Block
deriving DecidableEq

/-- The block-scanning loop of process_date over the blocks of one page.
For each block, the first line whose text matches TODO_DETECT is processed:
the immediately following run of list-item blocks is collected, a
create_todo_page call is made (outcome given by the oracle pOk at the index
of the call, the sub-item update outcome by sOk), and only on success a
mark_todo_as_done call is made (outcome mOk); a successful mark rewrites
the remote block.  Scanning then moves to the next block. -/
def process_blocks (pOk sOk mOk : Nat → Bool) :
    List Block → Nat → Nat → Nat → RunResult
  | [], _, _, _ => { events := [], blocks := [] }
  | b :: rest, i, c, m =>
    match (splitlines (extract_text_from_block b)).find? TODO_DETECT with
    | none =>
      let r := process_blocks pOk sOk mOk rest (i + 1) c m
      { events := r.events, blocks := b :: r.blocks }
    | some _ =>
      let atts := rest.takeWhile isListBlock
      if pOk c then
        let mk := mOk m
        let r := process_blocks pOk sOk mOk rest (i + 1) (c + 1) (m + 1)
        { events := Ev.create i atts true (some (sOk c)) :: Ev.mark i mk :: r.events
          blocks := (if mk then markApply b else b) :: r.blocks }
      else
        let r := process_blocks pOk sOk mOk rest (i + 1) (c + 1) m
        { events := Ev.create i atts false none :: r.events, blocks := b :: r.blocks }

/-!
Pagination.  One response of the paged query carries a batch of results, the
continuation cursor and the has_more flag.  The loop of
get_all_database_pages yields the batch, then stops when has_more is false,
else queries again with the continuation cursor; the successive responses of
the service are modelled as the list consumed in order.
get_page_blocks has the same loop shape with an accumulator.
-/

/-- One response of a paged query. -/
structure PageResp (α : Type) where
  results : List α
  nextCursor : Option Nat
  hasMore : Bool
deriving DecidableEq

/-- get_all_database_pages: yield each batch, continue while has_more. -/
def get_all_database_pages {α : Type} : List (PageResp α) → List α
  | [] => []
  | r :: rest => r.results ++ (if r.hasMore then get_all_database_pages rest else [])

/-- The accumulating loop of get_page_blocks. -/
def get_page_blocks_loop {α : Type} : List (PageResp α) → List α → List α
  | [], acc => acc
  | r :: rest, acc =>
    if r.hasMore then get_page_blocks_loop rest (acc ++ r.results) else acc ++ r.results

/-- get_page_blocks: collect every batch into one list. -/
def get_page_blocks {α : Type} (rs : List (PageResp α)) : List α :=
  get_page_blocks_loop rs []

/-- Index of the block an event concerns. -/
def evIdx : Ev → Nat
  | Ev.create i _ _ _ => i
  | Ev.mark i _ => i

/-!
Helper lemmas about dropWhile, takeWhile, prefixes and the embedded regex
operations.  These are shared infrastructure for the claim theorems.
-/

lemma dropWhile_append_of_all {α : Type} {p : α → Bool} {a b : List α}
    (h : ∀ c ∈ a, p c = true) : (a ++ b).dropWhile p = b.dropWhile p := by
  induction a with
  | nil => rfl
  | cons x xs ih =>
    have hx : p x = true := h x (List.mem_cons_self x xs)
    simp only [List.cons_append, List.dropWhile_cons, hx, if_true]
    exact ih (fun c hc => h c (List.mem_cons_of_mem x hc))

lemma dropWhile_eq_self_of_head {α : Type} {p : α → Bool} {l : List α}
    (h : ∀ c, l.head? = some c → p c = false) : l.dropWhile p = l := by
  cases l with
  | nil => rfl
  | cons x xs =>
    have hx : p x = false := h x rfl
    simp [List.dropWhile_cons, hx]

lemma head_of_dropWhile_false {α : Type} {p : α → Bool} {l : List α} {c : α}
    (h : (l.dropWhile p).head? = some c) : p c = false := by
  induction l with
  | nil => simp [List.dropWhile] at h
  | cons x xs ih =>
    by_cases hx : p x = true
    · rw [List.dropWhile_cons, if_pos hx] at h
      exact ih h
    · rw [List.dropWhile_cons, if_neg hx] at h
      simp only [List.head?_cons, Option.some.injEq] at h
      subst h
      simpa using hx

lemma dropWhile_eq_drop_length_takeWhile {α : Type} (p : α → Bool) (l : List α) :
    l.dropWhile p = l.drop (l.takeWhile p).length := by
  induction l with
  | nil => rfl
  | cons x xs ih =>
    by_cases hx : p x = true
    · simp [List.dropWhile_cons, List.takeWhile_cons, hx, ih]
    · simp [List.dropWhile_cons, List.takeWhile_cons, hx]

lemma head_of_isPrefix {α : Type} {s l : List α} {c : α}
    (hp : s <+: l) (h : s.head? = some c) : l.head? = some c := by
  obtain ⟨t, rfl⟩ := hp
  cases s with
  | nil => simp at h
  | cons x xs => simpa using h

lemma reverse_dropWhile_reverse_isPrefix {α : Type} (p : α → Bool) (l : List α) :
    (l.reverse.dropWhile p).reverse <+: l := by
  obtain ⟨t, ht⟩ : l.reverse.dropWhile p <:+ l.reverse := List.dropWhile_suffix p
  exact ⟨t.reverse, by rw [← List.reverse_append, ht, List.reverse_reverse]⟩

lemma pyStrip_head {l : List Char} {c : Char}
    (h : (pyStrip l).head? = some c) : (l.dropWhile isPySpace).head? = some c :=
  head_of_isPrefix (reverse_dropWhile_reverse_isPrefix isPySpace (l.dropWhile isPySpace)) h

lemma dropCI_append {pat s rest : List Char} (h : dropCI pat s = some []) :
    dropCI pat (s ++ rest) = some rest := by
  induction pat generalizing s with
  | nil =>
    cases s with
    | nil => rfl
    | cons c cs => simp [dropCI] at h
  | cons p ps ih =>
    cases s with
    | nil => simp [dropCI] at h
    | cons c cs =>
      by_cases hm : ciMatch p c = true
      · simp only [dropCI, hm, if_true] at h
        simpa only [List.cons_append, dropCI, hm, if_true] using ih h
      · simp [dropCI, hm] at h

lemma todoForms_spec (tok : List Char) (h : tok ∈ todoForms) :
    (∀ X, todoTok (tok ++ X) = some X) ∧ ∃ c t, tok = c :: t ∧ isWordChar c = true := by
  fin_cases h <;>
    exact ⟨fun X => by simp +decide [todoTok, dropCI, ciMatch, isPySpace],
           ⟨_, _, rfl, by decide⟩⟩

lemma todoTok_head_not_t {c : Char} {rest : List Char} (h : ciMatch 't' c = false) :
    todoTok (c :: rest) = none := by
  simp [todoTok, dropCI, h]

lemma TODO_DETECT_done_append (y : List Char) : TODO_DETECT (doneStr ++ y) = false := by
  have h1 : (doneStr ++ y).dropWhile nonWord = 'D' :: ('O' :: 'N' :: 'E' :: ' ' :: y) := by
    show List.dropWhile nonWord ('D' :: ('O' :: 'N' :: 'E' :: ' ' :: y)) = _
    rw [List.dropWhile_cons, if_neg (by decide)]
  simp [TODO_DETECT, h1, todoTokB,
    todoTok_head_not_t (show ciMatch 't' 'D' = false by decide)]

lemma process_blocks_nil (pOk sOk mOk : Nat → Bool) (n c m : Nat) :
    process_blocks pOk sOk mOk [] n c m = { events := [], blocks := [] } := rfl

lemma process_blocks_cons_none (pOk sOk mOk : Nat → Bool) (b : Block)
    (rest : List Block) (n c m : Nat)
    (hfind : (splitlines (extract_text_from_block b)).find? TODO_DETECT = none) :
    process_blocks pOk sOk mOk (b :: rest) n c m =
      { events := (process_blocks pOk sOk mOk rest (n + 1) c m).events
        blocks := b :: (process_blocks pOk sOk mOk rest (n + 1) c m).blocks } := by
  rw [process_blocks, hfind]

lemma process_blocks_cons_found_true (pOk sOk mOk : Nat → Bool) (b : Block)
    (rest : List Block) (n c m : Nat) (line : List Char)
    (hfind : (splitlines (extract_text_from_block b)).find? TODO_DETECT = some line)
    (hp : pOk c = true) :
    process_blocks pOk sOk mOk (b :: rest) n c m =
      { events := Ev.create n (rest.takeWhile isListBlock) true (some (sOk c)) ::
            Ev.mark n (mOk m) ::
            (process_blocks pOk sOk mOk rest (n + 1) (c + 1) (m + 1)).events
        blocks := (if mOk m then markApply b else b) ::
            (process_blocks pOk sOk mOk rest (n + 1) (c + 1) (m + 1)).blocks } := by
  rw [process_blocks, hfind]
  simp only [hp, if_true]

lemma process_blocks_cons_found_false (pOk sOk mOk : Nat → Bool) (b : Block)
    (rest : List Block) (n c m : Nat) (line : List Char)
    (hfind : (splitlines (extract_text_from_block b)).find? TODO_DETECT = some line)
    (hp : pOk c = false) :
    process_blocks pOk sOk mOk (b :: rest) n c m =
      { events := Ev.create n (rest.takeWhile isListBlock) false none ::
            (process_blocks pOk sOk mOk rest (n + 1) (c + 1) m).events
        blocks := b :: (process_blocks pOk sOk mOk rest (n + 1) (c + 1) m).blocks } := by
  rw [process_blocks, hfind]
  simp only [hp, Bool.false_eq_true, if_false]

lemma process_blocks_idx_ge (pOk sOk mOk : Nat → Bool) :
    ∀ (bs : List Block) (n c m : Nat) (e : Ev),
      e ∈ (process_blocks pOk sOk mOk bs n c m).events → n ≤ evIdx e := by
  intro bs
  induction bs with
  | nil =>
    intro n c m e he
    simp [process_blocks_nil] at he
  | cons b rest ih =>
    intro n c m e he
    rcases hfind : (splitlines (extract_text_from_block b)).find? TODO_DETECT with _ | line
    · rw [process_blocks_cons_none pOk sOk mOk b rest n c m hfind] at he
      exact Nat.le_of_succ_le (ih (n + 1) c m e he)
    · by_cases hp : pOk c = true
      · rw [process_blocks_cons_found_true pOk sOk mOk b rest n c m line hfind hp] at he
        simp only [List.mem_cons] at he
        rcases he with rfl | rfl | he
        · exact Nat.le_refl n
        · exact Nat.le_refl n
        · exact Nat.le_of_succ_le (ih (n + 1) (c + 1) (m + 1) e he)
      · rw [process_blocks_cons_found_false pOk sOk mOk b rest n c m line hfind
          (Bool.not_eq_true _ ▸ hp)] at he
        simp only [List.mem_cons] at he
        rcases he with rfl | he
        · exact Nat.le_refl n
        · exact Nat.le_of_succ_le (ih (n + 1) (c + 1) m e he)

lemma process_blocks_create_false (pOk sOk mOk : Nat → Bool) :
    ∀ (bs : List Block) (n c m j : Nat) (atts : List Block) (subr : Option Bool),
      Ev.create j atts false subr ∈ (process_blocks pOk sOk mOk bs n c m).events →
      (∀ ok, Ev.mark j ok ∉ (process_blocks pOk sOk mOk bs n c m).events) ∧
      (process_blocks pOk sOk mOk bs n c m).blocks[j - n]? = bs[j - n]? := by
  intro bs
  induction bs with
  | nil =>
    intro n c m j atts subr he
    simp [process_blocks_nil] at he
  | cons b rest ih =>
    intro n c m j atts subr he
    rcases hfind : (splitlines (extract_text_from_block b)).find? TODO_DETECT with _ | line
    · rw [process_blocks_cons_none pOk sOk mOk b rest n c m hfind] at he ⊢
      have hj : n + 1 ≤ j := process_blocks_idx_ge pOk sOk mOk rest (n + 1) c m _ he
      obtain ⟨hmk, hbl⟩ := ih (n + 1) c m j atts subr he
      refine ⟨hmk, ?_⟩
      have hjn : j - n = (j - (n + 1)) + 1 := by omega
      rw [hjn, List.getElem?_cons_succ, List.getElem?_cons_succ]
      exact hbl
    · by_cases hp : pOk c = true
      · rw [process_blocks_cons_found_true pOk sOk mOk b rest n c m line hfind hp] at he ⊢
        simp only [List.mem_cons] at he
        rcases he with hq | hq | he
      -- the head create event succeeded, so it cannot be the failed one
        · cases hq
        · cases hq
        · have hj : n + 1 ≤ j := process_blocks_idx_ge pOk sOk mOk rest (n + 1) (c + 1) (m + 1) _ he
          obtain ⟨hmk, hbl⟩ := ih (n + 1) (c + 1) (m + 1) j atts subr he
          constructor
          · intro ok hmem
            simp only [List.mem_cons] at hmem
            rcases hmem with hq | hq | hmem
            · cases hq
            · cases hq; omega
            · exact hmk ok hmem
          · have hjn : j - n = (j - (n + 1)) + 1 := by omega
            rw [hjn, List.getElem?_cons_succ, List.getElem?_cons_succ]
            exact hbl
      · have hp' : pOk c = false := by
          cases hpc : pOk c
          · rfl
          · exact absurd hpc hp
        rw [process_blocks_cons_found_false pOk sOk mOk b rest n c m line hfind hp'] at he ⊢
        simp only [List.mem_cons] at he
        rcases he with hq | he
        · injection hq with h1 h2 h3 h4
          subst h1
          constructor
          · intro ok hmem
            simp only [List.mem_cons] at hmem
            rcases hmem with hq2 | hmem
            · cases hq2
            · have hb := process_blocks_idx_ge pOk sOk mOk rest (j + 1) (c + 1) m _ hmem
              simp [evIdx] at hb
          · simp
        · have hj : n + 1 ≤ j := process_blocks_idx_ge pOk sOk mOk rest (n + 1) (c + 1) m _ he
          obtain ⟨hmk, hbl⟩ := ih (n + 1) (c + 1) m j atts subr he
          constructor
          · intro ok hmem
            simp only [List.mem_cons] at hmem
            rcases hmem with hq | hmem
            · cases hq
            · exact hmk ok hmem
          · have hjn : j - n = (j - (n + 1)) + 1 := by omega
            rw [hjn, List.getElem?_cons_succ, List.getElem?_cons_succ]
            exact hbl

lemma process_blocks_mark_imp_create (pOk sOk mOk : Nat → Bool) :
    ∀ (bs : List Block) (n c m j : Nat) (ok : Bool),
      Ev.mark j ok ∈ (process_blocks pOk sOk mOk bs n c m).events →
      ∃ a s, Ev.create j a true (some s) ∈ (process_blocks pOk sOk mOk bs n c m).events := by
  intro bs
  induction bs with
  | nil =>
    intro n c m j ok he
    simp [process_blocks_nil] at he
  | cons b rest ih =>
    intro n c m j ok he
    rcases hfind : (splitlines (extract_text_from_block b)).find? TODO_DETECT with _ | line
    · rw [process_blocks_cons_none pOk sOk mOk b rest n c m hfind] at he ⊢
      exact ih (n + 1) c m j ok he
    · by_cases hp : pOk c = true
      · rw [process_blocks_cons_found_true pOk sOk mOk b rest n c m line hfind hp] at he ⊢
        simp only [List.mem_cons] at he
        rcases he with hq | hq | he
        · cases hq
        · injection hq with h1 h2
          subst h1
          exact ⟨rest.takeWhile isListBlock, sOk c, by simp⟩
        · obtain ⟨a, s, hmem⟩ := ih (n + 1) (c + 1) (m + 1) j ok he
          exact ⟨a, s, by simp [hmem]⟩
      · have hp' : pOk c = false := by
          cases hpc : pOk c
          · rfl
          · exact absurd hpc hp
        rw [process_blocks_cons_found_false pOk sOk mOk b rest n c m line hfind hp'] at he ⊢
        simp only [List.mem_cons] at he
        rcases he with hq | he
        · cases hq
        · obtain ⟨a, s, hmem⟩ := ih (n + 1) (c + 1) m j ok he
          exact ⟨a, s, by simp [hmem]⟩

lemma process_blocks_create_true (pOk sOk mOk : Nat → Bool) :
    ∀ (bs : List Block) (n c m j : Nat) (atts : List Block) (sr : Option Bool),
      Ev.create j atts true sr ∈ (process_blocks pOk sOk mOk bs n c m).events →
      ∃ ok, Ev.mark j ok ∈ (process_blocks pOk sOk mOk bs n c m).events ∧
        (ok = true →
          (process_blocks pOk sOk mOk bs n c m).blocks[j - n]? =
            (bs[j - n]?).map markApply) := by
  intro bs
  induction bs with
  | nil =>
    intro n c m j atts sr he
    simp [process_blocks_nil] at he
  | cons b rest ih =>
    intro n c m j atts sr he
    rcases hfind : (splitlines (extract_text_from_block b)).find? TODO_DETECT with _ | line
    · rw [process_blocks_cons_none pOk sOk mOk b rest n c m hfind] at he ⊢
      have hj : n + 1 ≤ j := process_blocks_idx_ge pOk sOk mOk rest (n + 1) c m _ he
      obtain ⟨ok, hmem, hbl⟩ := ih (n + 1) c m j atts sr he
      refine ⟨ok, hmem, fun hok => ?_⟩
      have hjn : j - n = (j - (n + 1)) + 1 := by omega
      rw [hjn, List.getElem?_cons_succ, List.getElem?_cons_succ]
      exact hbl hok
    · by_cases hp : pOk c = true
      · rw [process_blocks_cons_found_true pOk sOk mOk b rest n c m line hfind hp] at he ⊢
        simp only [List.mem_cons] at he
        rcases he with hq | hq | he
        · injection hq with h1 h2 h3 h4
          subst h1
          refine ⟨mOk m, by simp, fun hok => ?_⟩
          simp [hok]
        · cases hq
        · have hj : n + 1 ≤ j := process_blocks_idx_ge pOk sOk mOk rest (n + 1) (c + 1) (m + 1) _ he
          obtain ⟨ok, hmem, hbl⟩ := ih (n + 1) (c + 1) (m + 1) j atts sr he
          refine ⟨ok, by simp [hmem], fun hok => ?_⟩
          have hjn : j - n = (j - (n + 1)) + 1 := by omega
          rw [hjn, List.getElem?_cons_succ, List.getElem?_cons_succ]
          exact hbl hok
      · have hp' : pOk c = false := by
          cases hpc : pOk c
          · rfl
          · exact absurd hpc hp
        rw [process_blocks_cons_found_false pOk sOk mOk b rest n c m line hfind hp'] at he ⊢
        simp only [List.mem_cons] at he
        rcases he with hq | he
        · cases hq
        · have hj : n + 1 ≤ j := process_blocks_idx_ge pOk sOk mOk rest (n + 1) (c + 1) m _ he
          obtain ⟨ok, hmem, hbl⟩ := ih (n + 1) (c + 1) m j atts sr he
          refine ⟨ok, by simp [hmem], fun hok => ?_⟩
          have hjn : j - n = (j - (n + 1)) + 1 := by omega
          rw [hjn, List.getElem?_cons_succ, List.getElem?_cons_succ]
          exact hbl hok

lemma takeWhile_decomp {α : Type} (p : α → Bool) (l : List α) :
    (∀ x ∈ l.takeWhile p, p x = true) ∧
    ∃ after, l = l.takeWhile p ++ after ∧
      ∀ hd, after.head? = some hd → p hd = false := by
  refine ⟨fun x hx => List.mem_takeWhile_imp hx, l.dropWhile p, ?_, ?_⟩
  · exact (List.takeWhile_append_dropWhile (p := p) (l := l)).symm
  · intro hd hhd
    exact head_of_dropWhile_false hhd

lemma process_blocks_create_atts (pOk sOk mOk : Nat → Bool) :
    ∀ (bs : List Block) (n c m j : Nat) (atts : List Block) (p : Bool) (s : Option Bool),
      Ev.create j atts p s ∈ (process_blocks pOk sOk mOk bs n c m).events →
      (∀ x ∈ atts, isListBlock x = true) ∧
      ∃ after, bs.drop (j - n + 1) = atts ++ after ∧
        ∀ hd, after.head? = some hd → isListBlock hd = false := by
  intro bs
  induction bs with
  | nil =>
    intro n c m j atts p s he
    simp [process_blocks_nil] at he
  | cons b rest ih =>
    intro n c m j atts p s he
    rcases hfind : (splitlines (extract_text_from_block b)).find? TODO_DETECT with _ | line
    · rw [process_blocks_cons_none pOk sOk mOk b rest n c m hfind] at he
      have hj : n + 1 ≤ j := process_blocks_idx_ge pOk sOk mOk rest (n + 1) c m _ he
      obtain ⟨hall, after, hdec, hhd⟩ := ih (n + 1) c m j atts p s he
      refine ⟨hall, after, ?_, hhd⟩
      have hjn : j - n + 1 = (j - (n + 1) + 1) + 1 := by omega
      rw [hjn, List.drop_succ_cons]
      exact hdec
    · by_cases hp : pOk c = true
      · rw [process_blocks_cons_found_true pOk sOk mOk b rest n c m line hfind hp] at he
        simp only [List.mem_cons] at he
        rcases he with hq | hq | he
        · injection hq with h1 h2 h3 h4
          subst h1 h2
          obtain ⟨hall, after, hdec, hhd⟩ := takeWhile_decomp isListBlock rest
          exact ⟨hall, after, by simpa using hdec, hhd⟩
        · cases hq
        · have hj : n + 1 ≤ j := process_blocks_idx_ge pOk sOk mOk rest (n + 1) (c + 1) (m + 1) _ he
          obtain ⟨hall, after, hdec, hhd⟩ := ih (n + 1) (c + 1) (m + 1) j atts p s he
          refine ⟨hall, after, ?_, hhd⟩
          have hjn : j - n + 1 = (j - (n + 1) + 1) + 1 := by omega
          rw [hjn, List.drop_succ_cons]
          exact hdec
      · have hp' : pOk c = false := by
          cases hpc : pOk c
          · rfl
          · exact absurd hpc hp
        rw [process_blocks_cons_found_false pOk sOk mOk b rest n c m line hfind hp'] at he
        simp only [List.mem_cons] at he
        rcases he with hq | he
        · injection hq with h1 h2 h3 h4
          subst h1 h2
          obtain ⟨hall, after, hdec, hhd⟩ := takeWhile_decomp isListBlock rest
          exact ⟨hall, after, by simpa using hdec, hhd⟩
        · have hj : n + 1 ≤ j := process_blocks_idx_ge pOk sOk mOk rest (n + 1) (c + 1) m _ he
          obtain ⟨hall, after, hdec, hhd⟩ := ih (n + 1) (c + 1) m j atts p s he
          refine ⟨hall, after, ?_, hhd⟩
          have hjn : j - n + 1 = (j - (n + 1) + 1) + 1 := by omega
          rw [hjn, List.drop_succ_cons]
          exact hdec

lemma get_all_database_pages_join {α : Type} :
    ∀ (ps : List (PageResp α)) (last : PageResp α),
      (∀ p ∈ ps, p.hasMore = true) →
      get_all_database_pages (ps ++ [last]) =
        ((ps ++ [last]).map PageResp.results).flatten := by
  intro ps
  induction ps with
  | nil =>
    intro last _
    cases hm : last.hasMore <;>
      simp [get_all_database_pages, hm]
  | cons p ps ih =>
    intro last h
    have hp : p.hasMore = true := h p (List.mem_cons_self p ps)
    have hrest : ∀ q ∈ ps, q.hasMore = true := fun q hq => h q (List.mem_cons_of_mem p hq)
    simp only [List.cons_append, get_all_database_pages, hp, if_true, List.map_cons,
      List.flatten_cons, List.append_eq]
    rw [ih last hrest]

lemma get_page_blocks_loop_join {α : Type} :
    ∀ (ps : List (PageResp α)) (last : PageResp α) (acc : List α),
      (∀ p ∈ ps, p.hasMore = true) →
      get_page_blocks_loop (ps ++ [last]) acc =
        acc ++ ((ps ++ [last]).map PageResp.results).flatten := by
  intro ps
  induction ps with
  | nil =>
    intro last acc _
    cases hm : last.hasMore <;>
      simp [get_page_blocks_loop, hm]
  | cons p ps ih =>
    intro last acc h
    have hp : p.hasMore = true := h p (List.mem_cons_self p ps)
    have hrest : ∀ q ∈ ps, q.hasMore = true := fun q hq => h q (List.mem_cons_of_mem p hq)
    simp only [List.cons_append, get_page_blocks_loop, hp, if_true, List.map_cons,
      List.flatten_cons, List.append_eq]
    rw [ih last (acc ++ p.results) hrest]
    simp [List.append_assoc]

/-!
Claim theorems.
-/

/-- C1: in the scanning loop of process_date, a block is rewritten (a
mark_todo_as_done call is made for it) only if the create_todo_page call for
that occurrence succeeded; when the create call reports failure, no
mark_todo_as_done call is made for that block and the remote block is left
unchanged. -/
theorem C1_mark_only_after_create_success (pOk sOk mOk : Nat → Bool)
    (bs : List Block) (j : Nat) :
    ((∃ atts subr, Ev.create j atts false subr ∈
        (process_blocks pOk sOk mOk bs 0 0 0).events) →
      (∀ ok, Ev.mark j ok ∉ (process_blocks pOk sOk mOk bs 0 0 0).events) ∧
      (process_blocks pOk sOk mOk bs 0 0 0).blocks[j]? = bs[j]?) ∧
    (∀ ok, Ev.mark j ok ∈ (process_blocks pOk sOk mOk bs 0 0 0).events →
      ∃ atts s, Ev.create j atts true (some s) ∈
        (process_blocks pOk sOk mOk bs 0 0 0).events) := by
  constructor
  · rintro ⟨atts, subr, he⟩
    have h := process_blocks_create_false pOk sOk mOk bs 0 0 0 j atts subr he
    simpa using h
  · intro ok hmem
    exact process_blocks_mark_imp_create pOk sOk mOk bs 0 0 0 j ok hmem

/-- Witness for C1: one block containing a TODO line, with a create oracle
that fails; the trace holds the failed create call, no mark call exists, and
the block is unchanged. -/
theorem C1_witness :
    Ev.create 0 [] false none ∈
      (process_blocks (fun _ => false) (fun _ => false) (fun _ => true)
        [⟨"b1".toList, "paragraph", [⟨"TODO: x".toList, none⟩], false⟩] 0 0 0).events ∧
    Ev.mark 0 true ∉
      (process_blocks (fun _ => false) (fun _ => false) (fun _ => true)
        [⟨"b1".toList, "paragraph", [⟨"TODO: x".toList, none⟩], false⟩] 0 0 0).events ∧
    (process_blocks (fun _ => false) (fun _ => false) (fun _ => true)
        [⟨"b1".toList, "paragraph", [⟨"TODO: x".toList, none⟩], false⟩] 0 0 0).blocks[0]? =
      [(⟨"b1".toList, "paragraph", [⟨"TODO: x".toList, none⟩], false⟩ : Block)][0]? := by
  refine ⟨by decide, ?_, ?_⟩
  · exact ((C1_mark_only_after_create_success (fun _ => false) (fun _ => false)
      (fun _ => true) _ 0).1 ⟨[], none, by decide⟩).1 true
  · exact ((C1_mark_only_after_create_success (fun _ => false) (fun _ => false)
      (fun _ => true) _ 0).1 ⟨[], none, by decide⟩).2

/-- C6: every create call in the scanning loop carries as attachments
exactly the maximal run of list-item blocks immediately following the
TODO-bearing block: all attached blocks are list items, they form the prefix
of the following blocks, and the first block after them (if any) is not a
list item. -/
theorem C6_attachment_grouping (pOk sOk mOk : Nat → Bool) (bs : List Block)
    (j : Nat) (atts : List Block) (p : Bool) (s : Option Bool)
    (h : Ev.create j atts p s ∈ (process_blocks pOk sOk mOk bs 0 0 0).events) :
    (∀ x ∈ atts, isListBlock x = true) ∧
    ∃ after, bs.drop (j + 1) = atts ++ after ∧
      ∀ hd, after.head? = some hd → isListBlock hd = false := by
  have h2 := process_blocks_create_atts pOk sOk mOk bs 0 0 0 j atts p s h
  simpa using h2

/-- Witness for C6: a TODO block followed by two list items and a paragraph
attaches exactly the two list items; a TODO block followed directly by a
paragraph attaches none. -/
theorem C6_witness :
    Ev.create 0 [⟨"l1".toList, "bulleted_list_item", [⟨"a".toList, none⟩], false⟩,
        ⟨"l2".toList, "numbered_list_item", [⟨"b".toList, none⟩], false⟩] true (some true) ∈
      (process_blocks (fun _ => true) (fun _ => true) (fun _ => true)
        [⟨"t".toList, "paragraph", [⟨"TODO: x".toList, none⟩], false⟩,
         ⟨"l1".toList, "bulleted_list_item", [⟨"a".toList, none⟩], false⟩,
         ⟨"l2".toList, "numbered_list_item", [⟨"b".toList, none⟩], false⟩,
         ⟨"p".toList, "paragraph", [⟨"c".toList, none⟩], false⟩] 0 0 0).events ∧
    (∃ after,
      ([⟨"t".toList, "paragraph", [⟨"TODO: x".toList, none⟩], false⟩,
        ⟨"l1".toList, "bulleted_list_item", [⟨"a".toList, none⟩], false⟩,
        ⟨"l2".toList, "numbered_list_item", [⟨"b".toList, none⟩], false⟩,
        ⟨"p".toList, "paragraph", [⟨"c".toList, none⟩], false⟩] : List Block).drop 1 =
          [⟨"l1".toList, "bulleted_list_item", [⟨"a".toList, none⟩], false⟩,
           ⟨"l2".toList, "numbered_list_item", [⟨"b".toList, none⟩], false⟩] ++ after ∧
        ∀ hd, after.head? = some hd → isListBlock hd = false) ∧
    Ev.create 0 [] true (some true) ∈
      (process_blocks (fun _ => true) (fun _ => true) (fun _ => true)
        [⟨"t".toList, "paragraph", [⟨"TODO: x".toList, none⟩], false⟩,
         ⟨"p".toList, "paragraph", [⟨"c".toList, none⟩], false⟩] 0 0 0).events := by
  refine ⟨by decide, ?_, by decide⟩
  exact (C6_attachment_grouping (fun _ => true) (fun _ => true) (fun _ => true)
    _ 0 _ true (some true) (by decide)).2

/-- C10: when page creation succeeds but the following sub-item relation
update fails, create_todo_page still returns success, so mark_todo_as_done
is still invoked for the source block, and a successful mark rewrites it. -/
theorem C10_sub_item_append_failure (pOk sOk mOk : Nat → Bool) (bs : List Block)
    (j : Nat) (atts : List Block)
    (h : Ev.create j atts true (some false) ∈
      (process_blocks pOk sOk mOk bs 0 0 0).events) :
    create_todo_page_run true false = (true, false) ∧
    ∃ ok, Ev.mark j ok ∈ (process_blocks pOk sOk mOk bs 0 0 0).events ∧
      (ok = true →
        (process_blocks pOk sOk mOk bs 0 0 0).blocks[j]? = (bs[j]?).map markApply) := by
  refine ⟨rfl, ?_⟩
  have h2 := process_blocks_create_true pOk sOk mOk bs 0 0 0 j atts (some false) h
  simpa using h2

/-- Witness for C10: one TODO block processed with page creation succeeding,
sub-item update failing, and marking succeeding; the mark call happens and
the block is rewritten. -/
theorem C10_witness :
    Ev.create 0 [] true (some false) ∈
      (process_blocks (fun _ => true) (fun _ => false) (fun _ => true)
        [⟨"b1".toList, "to_do", [⟨"TODO: x".toList, none⟩], false⟩] 0 0 0).events ∧
    create_todo_page_run true false = (true, false) ∧
    (∃ ok, Ev.mark 0 ok ∈
        (process_blocks (fun _ => true) (fun _ => false) (fun _ => true)
          [⟨"b1".toList, "to_do", [⟨"TODO: x".toList, none⟩], false⟩] 0 0 0).events ∧
      (ok = true →
        (process_blocks (fun _ => true) (fun _ => false) (fun _ => true)
          [⟨"b1".toList, "to_do", [⟨"TODO: x".toList, none⟩], false⟩] 0 0 0).blocks[0]? =
        ([(⟨"b1".toList, "to_do", [⟨"TODO: x".toList, none⟩], false⟩ : Block)][0]?).map markApply)) := by
  refine ⟨by decide, ?_⟩
  exact C10_sub_item_append_failure (fun _ => true) (fun _ => false) (fun _ => true)
    _ 0 [] (by decide)

/-- C3: for every simulated paged result set in which each page before the
last reports has_more and the last does not, both paginated fetchers return
exactly the concatenation of all pages of results, in service order. -/
theorem C3_pagination_exhaustive (α : Type) (ps : List (PageResp α))
    (last : PageResp α) (h1 : ∀ p ∈ ps, p.hasMore = true)
    (h2 : last.hasMore = false) :
    get_all_database_pages (ps ++ [last]) =
      ((ps ++ [last]).map PageResp.results).flatten ∧
    get_page_blocks (ps ++ [last]) =
      ((ps ++ [last]).map PageResp.results).flatten := by
  refine ⟨get_all_database_pages_join ps last h1, ?_⟩
  unfold get_page_blocks
  simpa using get_page_blocks_loop_join ps last [] h1

set_option maxRecDepth 4000 in
/-- Witness for C3: three pages of one hundred items each yield exactly the
three hundred items in order. -/
theorem C3_witness :
    get_all_database_pages
      [⟨List.range 100, some 1, true⟩,
       ⟨(List.range 100).map (fun k => k + 100), some 2, true⟩,
       ⟨(List.range 100).map (fun k => k + 200), none, false⟩] = List.range 300 ∧
    get_page_blocks
      [⟨List.range 100, some 1, true⟩,
       ⟨(List.range 100).map (fun k => k + 100), some 2, true⟩,
       ⟨(List.range 100).map (fun k => k + 200), none, false⟩] = List.range 300 := by
  have h := C3_pagination_exhaustive Nat
    [⟨List.range 100, some 1, true⟩, ⟨(List.range 100).map (fun k => k + 100), some 2, true⟩]
    ⟨(List.range 100).map (fun k => k + 200), none, false⟩
    (by decide) rfl
  have hflat :
      (([⟨List.range 100, some 1, true⟩,
         ⟨(List.range 100).map (fun k => k + 100), some 2, true⟩] ++
        [⟨(List.range 100).map (fun k => k + 200), none, false⟩] :
          List (PageResp Nat)).map PageResp.results).flatten = List.range 300 := by decide
  exact ⟨by rw [← hflat]; exact h.1, by rw [← hflat]; exact h.2⟩

/-- C4: a line made of an optional run of non-word characters (whitespace or
punctuation), then any casing of the marker todo, to-do or to do, then
optionally a colon, is matched by the detector; and a line whose first
marker occurrence sits after a word character (mid-line) is not matched. -/
theorem C4_detector_anchoring :
    (∀ (pre tok copt : List Char), (∀ c ∈ pre, isWordChar c = false) →
      tok ∈ todoForms → (copt = [] ∨ copt = [':']) →
      TODO_DETECT (pre ++ (tok ++ copt)) = true) ∧
    (∀ (u m : List Char), (∃ c ∈ u, isWordChar c = true) →
      (todoTokB m).isSome = true →
      (∀ i, i < u.length → (todoTokB ((u ++ m).drop i)).isSome = false) →
      TODO_DETECT (u ++ m) = false) := by
  constructor
  · intro pre tok copt hpre htok hcopt
    obtain ⟨happ, c, t, rfl, hc⟩ := todoForms_spec tok htok
    have h1 : (pre ++ (c :: t ++ copt)).dropWhile nonWord =
        (c :: t ++ copt).dropWhile nonWord :=
      dropWhile_append_of_all (fun x hx => by simp [nonWord, hpre x hx])
    have h2 : (c :: t ++ copt).dropWhile nonWord = c :: t ++ copt := by
      rw [List.cons_append, List.dropWhile_cons, if_neg]
      simp [nonWord, hc]
    rw [TODO_DETECT, h1, h2, todoTokB, happ copt]
    rcases hcopt with rfl | rfl
    · rfl
    · rfl
  · intro u m hu hm hno
    by_contra hdet
    have hdet' : TODO_DETECT (u ++ m) = true := by
      revert hdet
      cases TODO_DETECT (u ++ m) <;> simp
    obtain ⟨c, hcu, hcw⟩ := hu
    have hlt : ((u ++ m).takeWhile nonWord).length < u.length := by
      by_contra hge
      push_neg at hge
      have hpref : u <+: (u ++ m).takeWhile nonWord :=
        List.prefix_of_prefix_length_le (u.prefix_append m)
          (List.takeWhile_prefix nonWord) hge
      have hnw := List.mem_takeWhile_imp (hpref.subset hcu)
      simp [nonWord, hcw] at hnw
    have hz := hno _ hlt
    rw [TODO_DETECT, dropWhile_eq_drop_length_takeWhile] at hdet'
    rw [hz] at hdet'
    cases hdet'

/-- Witness for C4: the checkbox line prefix with an upper-case marker and a
colon is detected; a line whose marker occurs after the word fix is not. -/
theorem C4_witness :
    TODO_DETECT ("- [ ] ".toList ++ ("TODO".toList ++ [':'])) = true ∧
    TODO_DETECT ("fix ".toList ++ "todo later".toList) = false := by
  constructor
  · exact C4_detector_anchoring.1 "- [ ] ".toList "TODO".toList [':']
      (by decide) (by decide) (Or.inr rfl)
  · exact C4_detector_anchoring.2 "fix ".toList "todo later".toList
      ⟨'f', by decide, by decide⟩ (by decide) (by decide)

/-- C5: rewriting a detected line with the resolved marker (the anchored
TODO pattern substituted once by DONE followed by a space) yields a line the
detector no longer matches, so a second pass cannot re-detect it. -/
theorem C5_resolution_idempotent (line : List Char)
    (h : TODO_DETECT line = true) :
    TODO_DETECT (todoRemoveSub doneStr line) = false := by
  rcases htok : todoTok (line.dropWhile nonWord) with _ | suf
  · rw [TODO_DETECT, todoTokB, htok] at h
    cases h
  · have hr : todoRemoveSub doneStr line = doneStr ++ suf.dropWhile spaceColon := by
      rw [todoRemoveSub, htok]
    rw [hr]
    exact TODO_DETECT_done_append _

/-- Witness for C5: the checkbox TODO line, once rewritten, is detected no
longer. -/
theorem C5_witness :
    TODO_DETECT "- [ ] todo: x".toList = true ∧
    TODO_DETECT (todoRemoveSub doneStr "- [ ] todo: x".toList) = false :=
  ⟨by decide, C5_resolution_idempotent "- [ ] todo: x".toList (by decide)⟩

/-- Counterexample to C2: on the block text from the claim, the anchored
TODO_REMOVE match also consumes the leading checkbox punctuation and the
trailing colon, so the rewritten text is DONE fix login bug, not the
claimed - [ ] DONE fix login bug. -/
theorem C2_counterexample :
    (mark_todo_as_done
        ⟨"b1".toList, "paragraph", [⟨"- [ ] TODO: fix login bug".toList, none⟩], false⟩).richText =
      [⟨"DONE fix login bug".toList, none⟩] ∧
    (mark_todo_as_done
        ⟨"b1".toList, "paragraph", [⟨"- [ ] TODO: fix login bug".toList, none⟩], false⟩).richText ≠
      [⟨"- [ ] DONE fix login bug".toList, none⟩] := by
  exact ⟨by decide, by decide⟩

/-- C2 amended: mark_todo_as_done rewrites each rich-text segment by the
anchored substitution, which replaces the leading run of whitespace and
punctuation, the first marker, and the whitespace and colons following it by
DONE and a space, keeping the remaining characters and every hyperlink; the
claimed example text becomes DONE fix login bug; a to_do block additionally
has its checked flag set to true in the update payload. -/
theorem C2_source_mutator_rewrite (b : Block) (pre tok sc rest : List Char)
    (hpre : ∀ c ∈ pre, isWordChar c = false) (htok : tok ∈ todoForms)
    (hsc : ∀ c ∈ sc, spaceColon c = true)
    (hrest : ∀ c, rest.head? = some c → spaceColon c = false) :
    (mark_todo_as_done b).richText = b.richText.map doneSeg ∧
    (∀ s ∈ b.richText, (doneSeg s).link = s.link) ∧
    (mark_todo_as_done b).checked = (if b.type = "to_do" then some true else none) ∧
    todoRemoveSub doneStr (pre ++ (tok ++ (sc ++ rest))) = doneStr ++ rest ∧
    todoRemoveSub doneStr "- [ ] TODO: fix login bug".toList =
      "DONE fix login bug".toList := by
  refine ⟨rfl, fun s _ => rfl, rfl, ?_, by decide⟩
  obtain ⟨happ, c, t, rfl, hc⟩ := todoForms_spec tok htok
  have h1 : (pre ++ (c :: t ++ (sc ++ rest))).dropWhile nonWord =
      (c :: t ++ (sc ++ rest)).dropWhile nonWord :=
    dropWhile_append_of_all (fun x hx => by simp [nonWord, hpre x hx])
  have h2 : (c :: t ++ (sc ++ rest)).dropWhile nonWord = c :: t ++ (sc ++ rest) := by
    rw [List.cons_append, List.dropWhile_cons, if_neg]
    simp [nonWord, hc]
  rw [todoRemoveSub, h1, h2, happ (sc ++ rest)]
  show doneStr ++ List.dropWhile spaceColon (sc ++ rest) = doneStr ++ rest
  rw [dropWhile_append_of_all hsc, dropWhile_eq_self_of_head hrest]

/-- Witness for C2 amended: a concrete to_do block and the decomposition of
the example line around a lower-case marker. -/
theorem C2_witness :
    (mark_todo_as_done
        ⟨"b2".toList, "to_do", [⟨"- [ ] todo: buy milk".toList, some "u".toList⟩], false⟩).richText =
      [⟨"- [ ] todo: buy milk".toList, some "u".toList⟩].map doneSeg ∧
    (mark_todo_as_done
        ⟨"b2".toList, "to_do", [⟨"- [ ] todo: buy milk".toList, some "u".toList⟩], false⟩).checked =
      some true ∧
    todoRemoveSub doneStr ("- [ ] ".toList ++ ("todo".toList ++ (": ".toList ++ "buy milk".toList))) =
      doneStr ++ "buy milk".toList := by
  have h := C2_source_mutator_rewrite
    ⟨"b2".toList, "to_do", [⟨"- [ ] todo: buy milk".toList, some "u".toList⟩], false⟩
    "- [ ] ".toList "todo".toList ": ".toList "buy milk".toList
    (by decide) (by decide) (by decide) (by decide)
  exact ⟨h.1, h.2.2.1, h.2.2.2.1⟩

/-- C7: the creation payload built for a TODO occurrence has, in order, a
paragraph with the cleaned task text, the collected list-item attachments
with their rich text copied verbatim, and a closing paragraph as final
child whose last rich-text segment hyperlinks to the source page URL. -/
theorem C7_record_children_and_backlink (src : Page) (todoText : List Char)
    (atts : List Block) (h : ∀ x ∈ atts, isListBlock x = true) :
    (create_todo_page src todoText atts).children =
      ({ type := "paragraph",
         richText := [{ content := cleanTodoText todoText, link := none }] } : ChildBlock) ::
        (atts.map (fun x => ({ type := x.type, richText := x.richText } : ChildBlock)) ++
          [closingPara src]) ∧
    (create_todo_page src todoText atts).children.getLast? = some (closingPara src) ∧
    (closingPara src).richText.getLast? =
      some { content := "Link to original page".toList, link := some (sourceUrl src) } := by
  have hfilter : atts.filter isListBlock = atts := List.filter_eq_self.mpr h
  have hch : (create_todo_page src todoText atts).children =
      ({ type := "paragraph",
         richText := [{ content := cleanTodoText todoText, link := none }] } : ChildBlock) ::
        (atts.map (fun x => ({ type := x.type, richText := x.richText } : ChildBlock)) ++
          [closingPara src]) := by
    simp [create_todo_page, hfilter]
  refine ⟨hch, ?_, rfl⟩
  rw [hch, ← List.cons_append, List.getLast?_concat]

/-- Witness for C7: a concrete source page, task text and one bulleted
attachment. -/
theorem C7_witness :
    (create_todo_page ⟨"p1".toList, some "https://x/p1".toList, [], []⟩
        "TODO: fix login bug".toList
        [⟨"l1".toList, "bulleted_list_item", [⟨"check OAuth flow".toList, none⟩], false⟩]).children =
      ({ type := "paragraph",
         richText := [{ content := cleanTodoText "TODO: fix login bug".toList, link := none }] } : ChildBlock) ::
        (([⟨"l1".toList, "bulleted_list_item", [⟨"check OAuth flow".toList, none⟩], false⟩] : List Block).map
            (fun x => ({ type := x.type, richText := x.richText } : ChildBlock)) ++
          [closingPara ⟨"p1".toList, some "https://x/p1".toList, [], []⟩]) ∧
    (create_todo_page ⟨"p1".toList, some "https://x/p1".toList, [], []⟩
        "TODO: fix login bug".toList
        [⟨"l1".toList, "bulleted_list_item", [⟨"check OAuth flow".toList, none⟩], false⟩]).children.getLast? =
      some (closingPara ⟨"p1".toList, some "https://x/p1".toList, [], []⟩) := by
  have h := C7_record_children_and_backlink
    ⟨"p1".toList, some "https://x/p1".toList, [], []⟩
    "TODO: fix login bug".toList
    [⟨"l1".toList, "bulleted_list_item", [⟨"check OAuth flow".toList, none⟩], false⟩]
    (by decide)
  exact ⟨h.1, h.2.1⟩

/-- C8: the created record points its parent-item relation at the source
page, unless the source page has a non-empty parent-item relation, which is
then inherited instead. -/
theorem C8_parent_inheritance (src : Page) (todoText : List Char)
    (atts : List Block) :
    (src.parentRel = [] →
      (create_todo_page src todoText atts).parentRel = [src.id]) ∧
    (src.parentRel ≠ [] →
      (create_todo_page src todoText atts).parentRel = src.parentRel) := by
  constructor
  · intro h
    simp [create_todo_page, h]
  · intro h
    simp [create_todo_page, List.isEmpty_eq_true, h]

/-- Witness for C8: a page without a parent gets itself as the relation
target; a page with parent q1 passes q1 on. -/
theorem C8_witness :
    (create_todo_page ⟨"p1".toList, none, [], []⟩ "todo x".toList []).parentRel =
      ["p1".toList] ∧
    (create_todo_page ⟨"p2".toList, none, ["q1".toList], []⟩ "todo x".toList []).parentRel =
      ["q1".toList] := by
  constructor
  · exact (C8_parent_inheritance ⟨"p1".toList, none, [], []⟩ "todo x".toList []).1 rfl
  · exact (C8_parent_inheritance ⟨"p2".toList, none, ["q1".toList], []⟩ "todo x".toList []).2
      (by decide)

lemma cleanTodoText_head_clean {t : List Char} {c : Char}
    (h : (cleanTodoText t).head? = some c) : colonHyphenSpace c = false := by
  simp only [cleanTodoText] at h
  have h1 := pyStrip_head h
  have h2 : ((pyStrip (todoRemoveSub [] (pyStrip t))).dropWhile
      colonHyphenSpace).dropWhile isPySpace =
      (pyStrip (todoRemoveSub [] (pyStrip t))).dropWhile colonHyphenSpace := by
    refine dropWhile_eq_self_of_head (fun d hd => ?_)
    have hchs := head_of_dropWhile_false hd
    simp only [colonHyphenSpace, Bool.or_eq_false_iff] at hchs
    exact hchs.2
  rw [h2] at h1
  exact head_of_dropWhile_false h1

/-- Counterexample to C9: the detected line TODO TODO x is cleaned to
TODO x, which still begins with a marker the detector matches, so the
cleaning pipeline does not guarantee the absence of a leading marker. -/
theorem C9_counterexample :
    TODO_DETECT "TODO TODO x".toList = true ∧
    cleanPipeline "TODO TODO x".toList = "TODO x".toList ∧
    TODO_DETECT (cleanPipeline "TODO TODO x".toList) = true := by
  exact ⟨by decide, by decide, by decide⟩

/-- C9 amended: for every detected line the cleaning pipeline yields text
that does not begin with a colon, a hyphen or whitespace, and the claimed
example line yields exactly fix login bug; the pipeline does not remove a
second marker or checkbox markup that follows the first marker. -/
theorem C9_cleaning_no_leading_punctuation (line : List Char)
    (h : TODO_DETECT line = true) :
    (∀ c, (cleanPipeline line).head? = some c →
      (c = ':' ∨ c = '-' ∨ isPySpace c = true) → False) ∧
    cleanPipeline "- [ ] TODO: fix login bug".toList = "fix login bug".toList := by
  refine ⟨fun c hc hbad => ?_, by decide⟩
  have hclean : colonHyphenSpace c = false := cleanTodoText_head_clean hc
  simp only [colonHyphenSpace, Bool.or_eq_false_iff] at hclean
  rcases hbad with rfl | rfl | hsp
  · simp at hclean
  · simp at hclean
  · rw [hsp] at hclean
    exact absurd hclean.2 (by simp)

/-- Witness for C9 amended: the example line is detected, its cleaned head
is the letter f, and the cleaned text equals fix login bug. -/
theorem C9_witness :
    TODO_DETECT "- [ ] TODO: fix login bug".toList = true ∧
    cleanPipeline "- [ ] TODO: fix login bug".toList = "fix login bug".toList ∧
    (('f' = ':' ∨ 'f' = '-' ∨ isPySpace 'f' = true) → False) := by
  refine ⟨by decide, ?_, ?_⟩
  · exact (C9_cleaning_no_leading_punctuation "- [ ] TODO: fix login bug".toList (by decide)).2
  · exact (C9_cleaning_no_leading_punctuation "- [ ] TODO: fix login bug".toList (by decide)).1
      'f' (by decide)
